import Mathlib

/-!
# Verification of the tree-sitter-raku external scanner (src/src/scanner.c)

Shallow embedding of the scanner's data model and operations:

* `brace_stack` / `heredoc_stack` frames are modelled as Lean structures; a
  stack (the chain from the current head pointer down to the root frame) is a
  `List` whose head is the top frame and whose last element is the root.  A
  `NULL` head pointer corresponds to the empty list.
* C `assert` is modelled as the `.error .assertionFailure` outcome of an
  `Except CAssert` result: an assertion failure aborts the process, it is not
  a recoverable error value.
* Machine integers are `Nat` with explicit bounds (`uint32_t` values are
  `< 2 ^ 32`, `size_t` values are `< 2 ^ 64`); serialization writes
  little-endian bytes, each byte a `Nat < 256`.
* Recursive `free` walks are modelled with explicit fuel so that the
  non-terminating recursion in `heredoc_stack_free` is expressible: `none`
  means the call has not returned within the given fuel, for any fuel.

Parts of the repository that the claims depend on but that are absent from
`src/` (the contents of `brace_table.h`, and the deserializer, of which only
the `BUF_READ`/`BUF_READ_ARRAY` macros exist) are modelled from the spec and
are marked `Modelled from the spec:` in their doc comments.
-/

/-- Outcome of a C `assert` failure: the process aborts.  This is distinct
from any recoverable error value — the scanner source has no recoverable
error values at all. -/
inductive CAssert where
  | assertionFailure
deriving Repr, DecidableEq

/-- One frame of `struct brace_stack` (scanner.c lines 110–116): a `depth`
field and the expected `closing_brace` codepoint (`uint32_t`).  The `next`
pointer is the tail of the enclosing list. -/
structure BraceFrame where
  depth : Nat
  closing_brace : Nat
deriving Repr, DecidableEq

/-- One frame of `struct heredoc_stack` (scanner.c lines 31–66): `depth`, the
sentinel codepoint sequence (`const uint32_t* sentinel` plus
`sentinel_length`; a Lean list carries its own length), and the packed
interpolation-flags word (`uint32_t all_flags`, a union with the five
bit-field booleans).  The `next` pointer is the tail of the enclosing list. -/
structure HeredocFrame where
  depth : Nat
  sentinel : List Nat
  all_flags : Nat
deriving Repr, DecidableEq

/-- Embedding of `struct scanner_state` (scanner.c lines 169–172): the two current stack
head pointers. -/
structure scanner_state where
  current_brace : List BraceFrame
  current_heredoc : List HeredocFrame
deriving Repr, DecidableEq

/-- Embedding of `tree_sitter_raku_external_scanner_create` (scanner.c lines 174–188):
both stacks are a single `calloc`-zeroed root frame with depth 0. -/
def tree_sitter_raku_external_scanner_create : scanner_state :=
  { current_brace := [⟨0, 0⟩], current_heredoc := [⟨0, [], 0⟩] }

/-- Modelled from the spec: `brace_table.h` is included by scanner.c but is
not under `src/`.  Spec §6: "Delimiter pair table: a static, fixed mapping
from opening bracket characters to their closing counterparts (e.g. the
common bracket pairs) ... characters absent from the table are treated as
self-closing".  The common bracket pairs as (open, close) codepoints. -/
def bracePairs : List (Nat × Nat) :=
  [(40, 41), (91, 93), (123, 125), (60, 62)]

/-- Modelled from the spec: the `BRACE_TABLE` array of `brace_table.h`.  An
entry of 0 means "no asymmetric pair registered", matching the
`BRACE_TABLE[brace] != 0` test in `brace_stack_push`. -/
def BRACE_TABLE (c : Nat) : Nat :=
  (((bracePairs.find? (fun p => p.1 == c)).map (fun p => p.2)).getD 0)

/-- Modelled from the spec: the size of the `BRACE_TABLE` array (scanner.c
spells it `BACE_TABLE_MAX`).  All registered openers are ASCII. -/
def BACE_TABLE_MAX : Nat := 128

/-- Embedding of `brace_stack_push` (scanner.c lines 132–150): asserts `head != NULL`;
looks the opening codepoint up in the table (default: the opener itself);
allocates a new frame with `depth = head->depth + 1` and `next = head`. -/
def brace_stack_push (head : List BraceFrame) (brace : Nat) :
    Except CAssert (List BraceFrame) :=
  match head with
  | [] => .error .assertionFailure
  | top :: rest =>
    let closing_brace :=
      if brace < BACE_TABLE_MAX ∧ BRACE_TABLE brace ≠ 0 then BRACE_TABLE brace
      else brace
    .ok (⟨top.depth + 1, closing_brace⟩ :: top :: rest)

/-- Embedding of `brace_stack_pop` (scanner.c lines 152–165): asserts `head != NULL`,
`head->depth > 0` and `head->next != NULL`; detaches the top frame, frees it
and returns `head->next`.  Each failed assertion aborts the process. -/
def brace_stack_pop (head : List BraceFrame) :
    Except CAssert (List BraceFrame) :=
  match head with
  | [] => .error .assertionFailure
  | top :: rest =>
    if top.depth = 0 then .error .assertionFailure
    else match rest with
      | [] => .error .assertionFailure
      | _ :: _ => .ok rest

/-- Embedding of `heredoc_stack_push` as written (scanner.c lines 82–86): the body is
only `assert(head != NULL);` — no frame is allocated, the sentinel and flags
are not stored (the signature has no flags or length parameter at all), and
control falls off the end of the non-void function, so no stack is produced
(`Option.none` on the defined-behaviour path). -/
def heredoc_stack_push (head : List HeredocFrame) (_sentinel : List Nat) :
    Except CAssert (Option (List HeredocFrame)) :=
  match head with
  | [] => .error .assertionFailure
  | _ :: _ => .ok none

/-- Reference definition following the spec's words, for comparison with
the stub the source actually contains (embedded above).  Spec §4.2: push
"stores the sentinel value (copied, since the source text backing it may be
freed/moved after the call returns) and the five interpolation flags.
Depth semantics identical to the brace stack."  The source
`heredoc_stack_push` stores nothing, so the program diverges from this
reference — see the C4 and C6 evidence theorems. -/
def heredoc_stack_push_spec (head : List HeredocFrame) (sentinel : List Nat)
    (flags : Nat) : Except CAssert (List HeredocFrame) :=
  match head with
  | [] => .error .assertionFailure
  | top :: rest => .ok (⟨top.depth + 1, sentinel, flags⟩ :: top :: rest)

/-- Embedding of `heredoc_stack_pop` (scanner.c lines 88–101): asserts `head != NULL`,
`head->depth > 0`, `head->next != NULL`; returns `head->next`.  (The
detached frame is handed to `heredoc_stack_free`, whose divergence is
modelled separately with fuel.) -/
def heredoc_stack_pop (head : List HeredocFrame) :
    Except CAssert (List HeredocFrame) :=
  match head with
  | [] => .error .assertionFailure
  | top :: rest =>
    if top.depth = 0 then .error .assertionFailure
    else match rest with
      | [] => .error .assertionFailure
      | _ :: _ => .ok rest

/-- Embedding of `brace_stack_free` (scanner.c lines 118–130) with explicit fuel: for a
non-NULL head it recurses on `head->next`, then frees `head`.  Returns the
number of frames freed; `none` means the call has not returned within the
given fuel. -/
def brace_stack_free_fuel : Nat → List BraceFrame → Option Nat
  | 0, _ => none
  | _ + 1, [] => some 0
  | fuel + 1, _ :: rest => (brace_stack_free_fuel fuel rest).map (· + 1)

/-- Embedding of `heredoc_stack_free` (scanner.c lines 68–80) with explicit fuel: for a
non-NULL head it recursively calls `heredoc_stack_free(head)` — the same
pointer, not `head->next` — before `free(head)`, so the recursive call never
returns for any non-NULL argument. -/
def heredoc_stack_free_fuel : Nat → List HeredocFrame → Option Nat
  | 0, _ => none
  | _ + 1, [] => some 0
  | fuel + 1, top :: rest =>
    (heredoc_stack_free_fuel fuel (top :: rest)).map (· + 1)

/-- Embedding of `tree_sitter_raku_external_scanner_destroy` (scanner.c lines 190–200)
with explicit fuel: frees the brace stack, then the heredoc stack, then the
state; returns the total number of frames freed, or `none` if some free call
has not returned within the fuel. -/
def tree_sitter_raku_external_scanner_destroy_fuel (fuel : Nat)
    (state : scanner_state) : Option Nat := do
  let b ← brace_stack_free_fuel fuel state.current_brace
  let h ← heredoc_stack_free_fuel fuel state.current_heredoc
  pure (b + h)

/-! ## The serialization codec

`BUF_WRITE(ptr, type, what)` stores a machine value and advances the write
head by `sizeof(type)`; we model the byte stream little-endian, with
`sizeof(size_t) = 8` and `sizeof(uint32_t) = 4`. -/

/-- The `w` little-endian bytes of `v` (the store performed by
`BUF_WRITE`). -/
def le_bytes : Nat → Nat → List Nat
  | 0, _ => []
  | w + 1, v => v % 256 :: le_bytes w (v / 256)

/-- The byte image of an array of `uint32_t` codepoints (the `memcpy` in
`BUF_WRITE_ARRAY`). -/
def words_bytes (ws : List Nat) : List Nat :=
  (ws.map (le_bytes 4)).flatten

/-- The constant `TREE_SITTER_SERIALIZATION_BUFFER_SIZE` from `tree_sitter/parser.h` (the
host runtime's fixed serialization buffer capacity). -/
def TREE_SITTER_SERIALIZATION_BUFFER_SIZE : Nat := 1024

/-- The `depth` field of the frame at the stack's head pointer (scanner.c
reads `state->current_brace->depth`; the head is asserted non-NULL). -/
def braceHeadDepth : List BraceFrame → Nat
  | [] => 0
  | top :: _ => top.depth

/-- The `depth` field of the frame at the heredoc stack's head pointer. -/
def heredocHeadDepth : List HeredocFrame → Nat
  | [] => 0
  | top :: _ => top.depth

/-- The brace loop of `tree_sitter_raku_external_scanner_serialize`
(scanner.c lines 224–231): walk from the current head while
`elem->depth > 0`, writing each frame's `closing_brace` as a `uint32_t` —
the top frame first, the root never written. -/
def serialize_brace_loop : List BraceFrame → List Nat
  | [] => []
  | top :: rest =>
    if 0 < top.depth then le_bytes 4 top.closing_brace ++ serialize_brace_loop rest
    else []

/-- The heredoc loop of `tree_sitter_raku_external_scanner_serialize`
(scanner.c lines 241–249): walk from the current head while `hd->depth > 0`;
for each frame `BUF_WRITE` the `all_flags` word, then `BUF_WRITE_ARRAY` the
sentinel (its `size_t` length followed by that many `uint32_t`
codepoints). -/
def serialize_heredoc_loop : List HeredocFrame → List Nat
  | [] => []
  | top :: rest =>
    if 0 < top.depth then
      le_bytes 4 top.all_flags ++ le_bytes 8 top.sentinel.length ++
        words_bytes top.sentinel ++ serialize_heredoc_loop rest
    else []

/-- The byte stream written by `tree_sitter_raku_external_scanner_serialize`
(scanner.c lines 212–256): the brace stack's depth (`size_t`), the non-root
closing braces top-first, the heredoc stack's depth (`size_t`), then each
non-root heredoc frame top-first.  All bytes are written unconditionally;
the buffer-capacity asserts happen only afterwards (see
`serialize_asserts_ok`). -/
def serialize_bytes (state : scanner_state) : List Nat :=
  le_bytes 8 (braceHeadDepth state.current_brace) ++
    serialize_brace_loop state.current_brace ++
    le_bytes 8 (heredocHeadDepth state.current_heredoc) ++
    serialize_heredoc_loop state.current_heredoc

/-- The two `assert(head - buffer <= TREE_SITTER_SERIALIZATION_BUFFER_SIZE)`
checks of the serializer (scanner.c lines 234 and 251).  Both are evaluated
only *after* the corresponding writes have already been performed — the
source comment reads "it's likely too late anyways if this fails". -/
def serialize_asserts_ok (state : scanner_state) : Bool :=
  decide ((le_bytes 8 (braceHeadDepth state.current_brace) ++
      serialize_brace_loop state.current_brace).length ≤
      TREE_SITTER_SERIALIZATION_BUFFER_SIZE) &&
    decide ((serialize_bytes state).length ≤ TREE_SITTER_SERIALIZATION_BUFFER_SIZE)

/-! ## Decoding

The repository contains no `tree_sitter_raku_external_scanner_deserialize`;
only the `BUF_READ`/`BUF_READ_ARRAY` macros (scanner.c lines 261–272) exist.
The driver below is modelled from the spec (§4.3 layout, §6 Deserialize)
with the validation the spec demands; the unvalidated behaviour of the
source's `BUF_READ_ARRAY` macro is modelled separately afterwards. -/

/-- Read a `w`-byte little-endian value, failing (rather than reading past
the slice) if fewer than `w` bytes remain. -/
def readLE : Nat → List Nat → Option (Nat × List Nat)
  | 0, buf => some (0, buf)
  | _ + 1, [] => none
  | w + 1, b :: rest => (readLE w rest).map (fun vr => (b + 256 * vr.1, vr.2))

/-- Read `n` consecutive `uint32_t` little-endian words, failing if the
slice runs out. -/
def readWords : Nat → List Nat → Option (List Nat × List Nat)
  | 0, buf => some ([], buf)
  | n + 1, buf => do
    let (v, r) ← readLE 4 buf
    let (vs, r') ← readWords n r
    some (v :: vs, r')

/-- Modelled from the spec: read `n` brace frames in the serializer's
top-first order, reconstructing the contiguous depths `n, n-1, …, 1`
(§4.3 layout item 2, §3 depth invariant). -/
def readBraceFrames : Nat → List Nat → Option (List BraceFrame × List Nat)
  | 0, buf => some ([], buf)
  | n + 1, buf => do
    let (c, r) ← readLE 4 buf
    let (fs, r') ← readBraceFrames n r
    some (⟨n + 1, c⟩ :: fs, r')

/-- Modelled from the spec: read `n` heredoc frames in the serializer's
top-first order — flags word, sentinel length, sentinel codepoints for each
(§4.3 layout item 4). -/
def readHeredocFrames : Nat → List Nat → Option (List HeredocFrame × List Nat)
  | 0, buf => some ([], buf)
  | n + 1, buf => do
    let (flags, r1) ← readLE 4 buf
    let (len, r2) ← readLE 8 r1
    let (sent, r3) ← readWords len r2
    let (hs, r4) ← readHeredocFrames n r3
    some (⟨n + 1, sent, flags⟩ :: hs, r4)

/-- Modelled from the spec: the deserializer, absent from the repository.
§6: "given a byte slice of a given length (0 length means start fresh,
equivalent to post-Create), reconstruct a `ScannerState`; must reject
malformed/truncated input with a distinct error rather than reading past
the slice."  §4.3: symmetric layout, counts validated against the remaining
buffer.  `none` is the DeserializationCorruption outcome. -/
def tree_sitter_raku_external_scanner_deserialize (buf : List Nat) :
    Option scanner_state :=
  match buf with
  | [] => some tree_sitter_raku_external_scanner_create
  | _ :: _ => do
    let (n, r1) ← readLE 8 buf
    let (bs, r2) ← readBraceFrames n r1
    let (m, r3) ← readLE 8 r2
    let (hs, _r4) ← readHeredocFrames m r3
    some ⟨bs ++ [⟨0, 0⟩], hs ++ [⟨0, [], 0⟩]⟩

/-- The length declared by the `size_t` read at the start of the source's
`BUF_READ_ARRAY` macro (scanner.c lines 265–269): `len = *((size_t*)ptr)`,
taken from the first 8 bytes with no bounds check.  Bytes past the end of
the slice read as unspecified garbage (modelled as 0). -/
def BUF_READ_ARRAY_len (buf : List Nat) : Nat :=
  (List.range 8).foldr (fun i acc => buf.getD i 0 * 256 ^ i + acc) 0

/-- The exclusive end of the byte range `memcpy` reads in the source's
`BUF_READ_ARRAY` macro: after the 8-byte length it copies
`len * sizeof(uint32_t)` bytes starting at offset 8, without comparing `len`
to the remaining slice length. -/
def BUF_READ_ARRAY_access_end (buf : List Nat) : Nat :=
  8 + 4 * BUF_READ_ARRAY_len buf

/-- A corrupt 16-byte slice: its leading `size_t` declares a sentinel length
of 1000 codepoints (4000 bytes) while only 8 bytes follow. -/
def corruptSlice : List Nat := le_bytes 8 1000 ++ le_bytes 8 0

/-! ## Well-formed (reachable) stacks

The §3 invariant: the chain below the head pointer has contiguous depths
`n, n-1, …, 1, 0`, ends at the `calloc`-zeroed root, and every stored
machine value is in range for its C type (`uint32_t` codepoints and flag
words, `size_t` lengths and depths). -/

/-- The brace chain under a head whose `depth` is `n`: contiguous depths
down to the zeroed root `⟨0, 0⟩`, all closing braces `uint32_t`-ranged. -/
def braceChainD : Nat → List BraceFrame → Bool
  | 0, l => decide (l = [⟨0, 0⟩])
  | _ + 1, [] => false
  | n + 1, f :: rest =>
    decide (f.depth = n + 1) && decide (f.closing_brace < 2 ^ 32) &&
      braceChainD n rest

/-- The heredoc chain under a head whose `depth` is `n`: contiguous depths
down to the zeroed root `⟨0, [], 0⟩`, flag words and sentinel codepoints
`uint32_t`-ranged, sentinel lengths `size_t`-ranged. -/
def heredocChainD : Nat → List HeredocFrame → Bool
  | 0, l => decide (l = [⟨0, [], 0⟩])
  | _ + 1, [] => false
  | n + 1, f :: rest =>
    decide (f.depth = n + 1) && decide (f.all_flags < 2 ^ 32) &&
      decide (f.sentinel.length < 2 ^ 64) &&
      f.sentinel.all (fun c => decide (c < 2 ^ 32)) &&
      heredocChainD n rest

/-- A well-formed `scanner_state`: both chains satisfy the §3 invariant and
both depths fit in a `size_t`.  Freshly created states are well formed and
push/pop preserve well-formedness, so every reachable state is well
formed. -/
def stateWF (s : scanner_state) : Bool :=
  braceChainD (braceHeadDepth s.current_brace) s.current_brace &&
    decide (braceHeadDepth s.current_brace < 2 ^ 64) &&
    heredocChainD (heredocHeadDepth s.current_heredoc) s.current_heredoc &&
    decide (heredocHeadDepth s.current_heredoc < 2 ^ 64)

/-! ## Sequences of stack operations

A driver used to construct concrete reachable states (the 260-frame
overflow state below is built from brace pushes alone, on which every
operation succeeds).  It is *not* a faithful account of failure behaviour
and no claim is confirmed through it: in the real program a failed assert
aborts the process (C2 evidence), the heredoc push stores nothing (C4
evidence), and a heredoc pop at depth > 0 never returns (C9 evidence); the
driver skips a signalled operation, and routes heredoc pushes through the
spec-reference `heredoc_stack_push_spec`, only so that state construction
can proceed. -/

/-- One stack operation, with its C-typed operands. -/
inductive StackOp where
  | brace_push (c : Nat)
  | brace_pop
  | heredoc_push (sentinel : List Nat) (flags : Nat)
  | heredoc_pop
deriving Repr, DecidableEq

/-- Apply one operation; a signalled operation is skipped (see the section
comment — in the program it would abort or misbehave). -/
def applyOp (s : scanner_state) : StackOp → scanner_state
  | .brace_push c =>
    match brace_stack_push s.current_brace c with
    | .ok l => { s with current_brace := l }
    | .error _ => s
  | .brace_pop =>
    match brace_stack_pop s.current_brace with
    | .ok l => { s with current_brace := l }
    | .error _ => s
  | .heredoc_push sentinel flags =>
    match heredoc_stack_push_spec s.current_heredoc sentinel flags with
    | .ok l => { s with current_heredoc := l }
    | .error _ => s
  | .heredoc_pop =>
    match heredoc_stack_pop s.current_heredoc with
    | .ok l => { s with current_heredoc := l }
    | .error _ => s

/-- Run a sequence of operations left to right. -/
def runOps (s : scanner_state) : List StackOp → scanner_state
  | [] => s
  | op :: ops => runOps (applyOp s op) ops

/-- The §3 chain invariant for both stacks of a state (contiguous depths
ending at the zeroed root, machine-ranged stored values). -/
def stateChainOK (s : scanner_state) : Bool :=
  braceChainD (braceHeadDepth s.current_brace) s.current_brace &&
    heredocChainD (heredocHeadDepth s.current_heredoc) s.current_heredoc

/-- The concrete state used to exhibit the serializer overflow: 260 brace
pushes of `(` from a fresh state.  Its encoding needs
8 + 260·4 + 8 = 1056 bytes, more than the 1024-byte buffer. -/
def overflowState : scanner_state :=
  runOps tree_sitter_raku_external_scanner_create
    (List.replicate 260 (.brace_push 40))

/-! ## Codec lemmas -/

/-- Reading back `w` little-endian bytes recovers the written value. -/
theorem readLE_le_bytes (w : Nat) : ∀ (v : Nat) (rest : List Nat), v < 256 ^ w →
    readLE w (le_bytes w v ++ rest) = some (v, rest) := by
  induction w with
  | zero =>
    intro v rest hv
    have hv0 : v = 0 := by simpa using hv
    subst hv0
    simp [le_bytes, readLE]
  | succ k ih =>
    intro v rest hv
    have hdiv : v / 256 < 256 ^ k := by
      rw [Nat.div_lt_iff_lt_mul (by norm_num : (0:Nat) < 256)]
      calc v < 256 ^ (k + 1) := hv
        _ = 256 ^ k * 256 := by rw [Nat.pow_succ]
    rw [show le_bytes (k + 1) v ++ rest
        = v % 256 :: (le_bytes k (v / 256) ++ rest) from rfl]
    rw [show readLE (k + 1) (v % 256 :: (le_bytes k (v / 256) ++ rest))
        = (readLE k (le_bytes k (v / 256) ++ rest)).map
            (fun vr => (v % 256 + 256 * vr.1, vr.2)) from rfl]
    rw [ih (v / 256) rest hdiv]
    simp [Nat.mod_add_div]

/-- Unfolding `words_bytes` over a cons. -/
theorem words_bytes_cons (c : Nat) (cs : List Nat) :
    words_bytes (c :: cs) = le_bytes 4 c ++ words_bytes cs := by
  simp [words_bytes]

/-- Reading back a written `uint32_t` array recovers the codepoints. -/
theorem readWords_words_bytes : ∀ (ws : List Nat) (rest : List Nat),
    (∀ c ∈ ws, c < 2 ^ 32) →
    readWords ws.length (words_bytes ws ++ rest) = some (ws, rest) := by
  intro ws
  induction ws with
  | nil => intro rest _; simp [words_bytes, readWords]
  | cons c cs ih =>
    intro rest h
    have hc : c < 256 ^ 4 := by
      have := h c (by simp)
      norm_num at this ⊢
      omega
    simp only [words_bytes_cons, List.length_cons, List.append_assoc, readWords,
      readLE_le_bytes 4 c _ hc, ih rest (fun d hd => h d (by simp [hd])),
      Option.bind_eq_bind, Option.some_bind]

/-- Reading back the serializer's brace section recovers exactly the
non-root frames, in the stored (top-first) order, for any chain satisfying
the §3 invariant. -/
theorem readBraceFrames_loop : ∀ (n : Nat) (l : List BraceFrame) (rest : List Nat),
    braceChainD n l = true →
    ∃ fs, l = fs ++ [⟨0, 0⟩] ∧
      readBraceFrames n (serialize_brace_loop l ++ rest) = some (fs, rest) := by
  intro n
  induction n with
  | zero =>
    intro l rest hl
    have hl0 : l = [⟨0, 0⟩] := by simpa [braceChainD] using hl
    subst hl0
    exact ⟨[], rfl, by simp [serialize_brace_loop, readBraceFrames]⟩
  | succ k ih =>
    intro l rest hl
    match l with
    | [] => simp [braceChainD] at hl
    | f :: l' =>
      simp only [braceChainD, Bool.and_eq_true, decide_eq_true_eq] at hl
      obtain ⟨⟨hd, hc⟩, hrest⟩ := hl
      obtain ⟨fs', hl', hread⟩ := ih l' rest hrest
      have hc4 : f.closing_brace < 256 ^ 4 := by norm_num at hc ⊢; omega
      refine ⟨f :: fs', by rw [hl']; rfl, ?_⟩
      have hloop : serialize_brace_loop (f :: l')
          = le_bytes 4 f.closing_brace ++ serialize_brace_loop l' := by
        simp [serialize_brace_loop, hd]
      rw [hloop, List.append_assoc]
      simp only [readBraceFrames, readLE_le_bytes 4 f.closing_brace _ hc4,
        hread, Option.bind_eq_bind, Option.some_bind]
      have hf : (⟨k + 1, f.closing_brace⟩ : BraceFrame) = f := by
        cases f
        simp_all
      rw [hf]

/-- Reading back the serializer's heredoc section recovers exactly the
non-root frames — flags, sentinel length and sentinel codepoints — in the
stored (top-first) order, for any chain satisfying the §3 invariant. -/
theorem readHeredocFrames_loop : ∀ (n : Nat) (l : List HeredocFrame) (rest : List Nat),
    heredocChainD n l = true →
    ∃ fs, l = fs ++ [⟨0, [], 0⟩] ∧
      readHeredocFrames n (serialize_heredoc_loop l ++ rest) = some (fs, rest) := by
  intro n
  induction n with
  | zero =>
    intro l rest hl
    have hl0 : l = [⟨0, [], 0⟩] := by simpa [heredocChainD] using hl
    subst hl0
    exact ⟨[], rfl, by simp [serialize_heredoc_loop, readHeredocFrames]⟩
  | succ k ih =>
    intro l rest hl
    match l with
    | [] => simp [heredocChainD] at hl
    | f :: l' =>
      simp only [heredocChainD, Bool.and_eq_true, decide_eq_true_eq,
        List.all_eq_true] at hl
      obtain ⟨⟨⟨⟨hd, hflags⟩, hlen⟩, hsent⟩, hrest⟩ := hl
      obtain ⟨fs', hl', hread⟩ := ih l' rest hrest
      have hf4 : f.all_flags < 256 ^ 4 := by norm_num at hflags ⊢; omega
      have hl8 : f.sentinel.length < 256 ^ 8 := by norm_num at hlen ⊢; omega
      have hsent' : ∀ c ∈ f.sentinel, c < 2 ^ 32 := by
        intro c hcmem
        simpa using hsent c hcmem
      refine ⟨f :: fs', by rw [hl']; rfl, ?_⟩
      have hloop : serialize_heredoc_loop (f :: l')
          = le_bytes 4 f.all_flags ++ (le_bytes 8 f.sentinel.length ++
              (words_bytes f.sentinel ++ serialize_heredoc_loop l')) := by
        simp [serialize_heredoc_loop, hd]
      rw [hloop, List.append_assoc]
      simp only [readHeredocFrames, readLE_le_bytes 4 f.all_flags _ hf4,
        Option.bind_eq_bind, Option.some_bind]
      rw [List.append_assoc]
      simp only [readLE_le_bytes 8 f.sentinel.length _ hl8, Option.some_bind]
      rw [List.append_assoc]
      simp only [readWords_words_bytes f.sentinel _ hsent', Option.some_bind,
        hread]
      have hf : (⟨k + 1, f.sentinel, f.all_flags⟩ : HeredocFrame) = f := by
        cases f
        simp_all
      rw [hf]

/-! ## Chain invariant lemmas -/

/-- A well-formed brace chain is non-empty (the root always exists). -/
theorem braceChainD_ne_nil (n : Nat) (l : List BraceFrame)
    (h : braceChainD n l = true) : l ≠ [] := by
  cases n <;> cases l <;> simp_all [braceChainD]

/-- A well-formed heredoc chain is non-empty (the root always exists). -/
theorem heredocChainD_ne_nil (n : Nat) (l : List HeredocFrame)
    (h : heredocChainD n l = true) : l ≠ [] := by
  cases n <;> cases l <;> simp_all [heredocChainD]

/-- On a well-formed brace chain the head's stored `depth` is the chain
parameter. -/
theorem braceChainD_headDepth (n : Nat) (l : List BraceFrame)
    (h : braceChainD n l = true) : braceHeadDepth l = n := by
  cases n <;> cases l <;> simp_all [braceChainD, braceHeadDepth]

/-- On a well-formed heredoc chain the head's stored `depth` is the chain
parameter. -/
theorem heredocChainD_headDepth (n : Nat) (l : List HeredocFrame)
    (h : heredocChainD n l = true) : heredocHeadDepth l = n := by
  cases n <;> cases l <;> simp_all [heredocChainD, heredocHeadDepth]

/-- Every entry of the (spec-modelled) pair table is a `uint32_t` value. -/
theorem BRACE_TABLE_lt (c : Nat) : BRACE_TABLE c < 2 ^ 32 := by
  unfold BRACE_TABLE
  cases hf : bracePairs.find? (fun p => p.1 == c) with
  | none => simp
  | some p =>
    have hmem := List.mem_of_find?_eq_some hf
    simp only [bracePairs, List.mem_cons, List.not_mem_nil, or_false] at hmem
    rcases hmem with h | h | h | h <;> subst h <;> simp

/-- A well-formed brace chain ends at the zeroed root frame. -/
theorem braceChainD_getLast (n : Nat) : ∀ (l : List BraceFrame),
    braceChainD n l = true → l.getLast? = some ⟨0, 0⟩ := by
  induction n with
  | zero =>
    intro l h
    have h0 : l = [⟨0, 0⟩] := by simpa [braceChainD] using h
    subst h0
    rfl
  | succ k ih =>
    intro l h
    match l with
    | [] => simp [braceChainD] at h
    | f :: l' =>
      simp only [braceChainD, Bool.and_eq_true, decide_eq_true_eq] at h
      have hrest := h.2
      have hlast := ih l' hrest
      match l', hlast with
      | g :: t, hlast => simpa [List.getLast?] using hlast

/-- A well-formed heredoc chain ends at the zeroed root frame. -/
theorem heredocChainD_getLast (n : Nat) : ∀ (l : List HeredocFrame),
    heredocChainD n l = true → l.getLast? = some ⟨0, [], 0⟩ := by
  induction n with
  | zero =>
    intro l h
    have h0 : l = [⟨0, [], 0⟩] := by simpa [heredocChainD] using h
    subst h0
    rfl
  | succ k ih =>
    intro l h
    match l with
    | [] => simp [heredocChainD] at h
    | f :: l' =>
      simp only [heredocChainD, Bool.and_eq_true, decide_eq_true_eq] at h
      have hrest := h.2
      have hlast := ih l' hrest
      match l', hlast with
      | g :: t, hlast => simpa [List.getLast?] using hlast

/-- On a well-formed brace chain of parameter `n`: the chain holds `n + 1`
frames and the `i`-th frame from the top has depth `n - i` — the depths are
the contiguous integers from `n` at the top down to `0` at the root. -/
theorem braceChainD_get (n : Nat) : ∀ (l : List BraceFrame),
    braceChainD n l = true →
    l.length = n + 1 ∧ ∀ i (hi : i < l.length), (l.get ⟨i, hi⟩).depth = n - i := by
  induction n with
  | zero =>
    intro l h
    have h0 : l = [⟨0, 0⟩] := by simpa [braceChainD] using h
    subst h0
    refine ⟨rfl, ?_⟩
    intro i hi
    match i, hi with
    | 0, _ => rfl
  | succ k ih =>
    intro l h
    match l with
    | [] => simp [braceChainD] at h
    | f :: l' =>
      simp only [braceChainD, Bool.and_eq_true, decide_eq_true_eq] at h
      obtain ⟨⟨hd, _⟩, hrest⟩ := h
      obtain ⟨hlen, hget⟩ := ih l' hrest
      refine ⟨by simp [hlen], ?_⟩
      intro i hi
      match i with
      | 0 => simpa using hd
      | i + 1 =>
        have hi' : i < l'.length := by simp at hi; omega
        simpa using hget i hi'

/-- On a well-formed heredoc chain of parameter `n`: the chain holds `n + 1`
frames and the `i`-th frame from the top has depth `n - i`. -/
theorem heredocChainD_get (n : Nat) : ∀ (l : List HeredocFrame),
    heredocChainD n l = true →
    l.length = n + 1 ∧ ∀ i (hi : i < l.length), (l.get ⟨i, hi⟩).depth = n - i := by
  induction n with
  | zero =>
    intro l h
    have h0 : l = [⟨0, [], 0⟩] := by simpa [heredocChainD] using h
    subst h0
    refine ⟨rfl, ?_⟩
    intro i hi
    match i, hi with
    | 0, _ => rfl
  | succ k ih =>
    intro l h
    match l with
    | [] => simp [heredocChainD] at h
    | f :: l' =>
      simp only [heredocChainD, Bool.and_eq_true, decide_eq_true_eq] at h
      obtain ⟨⟨⟨⟨hd, _⟩, _⟩, _⟩, hrest⟩ := h
      obtain ⟨hlen, hget⟩ := ih l' hrest
      refine ⟨by simp [hlen], ?_⟩
      intro i hi
      match i with
      | 0 => simpa using hd
      | i + 1 =>
        have hi' : i < l'.length := by simp at hi; omega
        simpa using hget i hi'

/-- Unfolding the deserializer on a non-empty slice. -/
theorem deserialize_ne_nil (buf : List Nat) (hne : buf ≠ []) :
    tree_sitter_raku_external_scanner_deserialize buf = (do
      let (n, r1) ← readLE 8 buf
      let (bs, r2) ← readBraceFrames n r1
      let (m, r3) ← readLE 8 r2
      let (hs, _r4) ← readHeredocFrames m r3
      some (⟨bs ++ [⟨0, 0⟩], hs ++ [⟨0, [], 0⟩]⟩ : scanner_state)) := by
  cases buf with
  | nil => exact absurd rfl hne
  | cons b t => rfl

/-- C1. Round-trip law: for every well-formed (hence every reachable)
`scanner_state`, decoding the byte stream written by
`tree_sitter_raku_external_scanner_serialize` reconstructs a state whose
two stacks are identical — same depths, closing delimiters, sentinels and
interpolation-flag words, in the same order (the reconstructed state is
equal to the original).  The serializer is embedded from the source; the
decoder is modelled from the spec since the repository has none. -/
theorem serialize_deserialize_roundtrip (st : scanner_state)
    (h : stateWF st = true) :
    tree_sitter_raku_external_scanner_deserialize (serialize_bytes st)
      = some st := by
  simp only [stateWF, Bool.and_eq_true, decide_eq_true_eq] at h
  obtain ⟨⟨⟨hb, hbd⟩, hh⟩, hhd⟩ := h
  have hbd' : braceHeadDepth st.current_brace < 256 ^ 8 := by
    norm_num at hbd ⊢
    omega
  have hhd' : heredocHeadDepth st.current_heredoc < 256 ^ 8 := by
    norm_num at hhd ⊢
    omega
  obtain ⟨fsB, hlB, hreadB⟩ := readBraceFrames_loop
    (braceHeadDepth st.current_brace) st.current_brace
    (le_bytes 8 (heredocHeadDepth st.current_heredoc)
      ++ serialize_heredoc_loop st.current_heredoc) hb
  obtain ⟨fsH, hlH, hreadH⟩ := readHeredocFrames_loop
    (heredocHeadDepth st.current_heredoc) st.current_heredoc [] hh
  rw [List.append_nil] at hreadH
  have hser : serialize_bytes st
      = le_bytes 8 (braceHeadDepth st.current_brace)
        ++ (serialize_brace_loop st.current_brace
          ++ (le_bytes 8 (heredocHeadDepth st.current_heredoc)
            ++ serialize_heredoc_loop st.current_heredoc)) := by
    simp [serialize_bytes, List.append_assoc]
  have hne : serialize_bytes st ≠ [] := by
    rw [hser]
    simp [le_bytes]
  rw [deserialize_ne_nil _ hne, hser]
  rw [readLE_le_bytes 8 (braceHeadDepth st.current_brace) _ hbd']
  simp only [Option.bind_eq_bind, Option.some_bind]
  rw [hreadB]
  simp only [Option.some_bind]
  rw [readLE_le_bytes 8 (heredocHeadDepth st.current_heredoc) _ hhd']
  simp only [Option.some_bind]
  rw [hreadH]
  simp only [Option.some_bind]
  rw [← hlB, ← hlH]

/-- C1 witness. A concrete state with two brace frames and one heredoc
frame (sentinel "END", flags word 3) satisfies the well-formedness
hypothesis and round-trips bit-exactly. -/
theorem serialize_deserialize_roundtrip_witness :
    stateWF ⟨[⟨2, 93⟩, ⟨1, 41⟩, ⟨0, 0⟩], [⟨1, [69, 78, 68], 3⟩, ⟨0, [], 0⟩]⟩
      = true
    ∧ tree_sitter_raku_external_scanner_deserialize (serialize_bytes
        ⟨[⟨2, 93⟩, ⟨1, 41⟩, ⟨0, 0⟩], [⟨1, [69, 78, 68], 3⟩, ⟨0, [], 0⟩]⟩)
      = some ⟨[⟨2, 93⟩, ⟨1, 41⟩, ⟨0, 0⟩], [⟨1, [69, 78, 68], 3⟩, ⟨0, [], 0⟩]⟩ :=
  ⟨by decide, serialize_deserialize_roundtrip _ (by decide)⟩

/-- On a well-formed chain the serializer's brace loop emits exactly the
non-root frames (all frames but the last), in stored order — the current
top first, walking toward the root. -/
theorem serialize_brace_loop_layout (n : Nat) : ∀ (l : List BraceFrame),
    braceChainD n l = true →
    serialize_brace_loop l
      = (l.dropLast.map (fun f => le_bytes 4 f.closing_brace)).flatten := by
  induction n with
  | zero =>
    intro l h
    have h0 : l = [⟨0, 0⟩] := by simpa [braceChainD] using h
    subst h0
    simp [serialize_brace_loop]
  | succ k ih =>
    intro l h
    match l with
    | [] => simp [braceChainD] at h
    | f :: l' =>
      simp only [braceChainD, Bool.and_eq_true, decide_eq_true_eq] at h
      obtain ⟨⟨hd, _⟩, hrest⟩ := h
      have hne : l' ≠ [] := braceChainD_ne_nil k l' hrest
      match l', hne with
      | g :: t, _ =>
        have hloop : serialize_brace_loop (f :: g :: t)
            = le_bytes 4 f.closing_brace ++ serialize_brace_loop (g :: t) := by
          simp [serialize_brace_loop, hd]
        rw [hloop, ih (g :: t) hrest]
        simp [List.dropLast]

/-- On a well-formed chain the serializer's heredoc loop emits exactly the
non-root frames — flags word, then sentinel length, then sentinel
codepoints for each — in stored order, the current top first. -/
theorem serialize_heredoc_loop_layout (n : Nat) : ∀ (l : List HeredocFrame),
    heredocChainD n l = true →
    serialize_heredoc_loop l
      = (l.dropLast.map (fun f => le_bytes 4 f.all_flags
          ++ le_bytes 8 f.sentinel.length ++ words_bytes f.sentinel)).flatten := by
  induction n with
  | zero =>
    intro l h
    have h0 : l = [⟨0, [], 0⟩] := by simpa [heredocChainD] using h
    subst h0
    simp [serialize_heredoc_loop]
  | succ k ih =>
    intro l h
    match l with
    | [] => simp [heredocChainD] at h
    | f :: l' =>
      simp only [heredocChainD, Bool.and_eq_true, decide_eq_true_eq] at h
      obtain ⟨⟨⟨⟨hd, _⟩, _⟩, _⟩, hrest⟩ := h
      have hne : l' ≠ [] := heredocChainD_ne_nil k l' hrest
      match l', hne with
      | g :: t, _ =>
        have hloop : serialize_heredoc_loop (f :: g :: t)
            = le_bytes 4 f.all_flags ++ le_bytes 8 f.sentinel.length
              ++ words_bytes f.sentinel ++ serialize_heredoc_loop (g :: t) := by
          simp [serialize_heredoc_loop, hd, List.append_assoc]
        rw [hloop, ih (g :: t) hrest]
        simp [List.dropLast, List.append_assoc]

/-- C10. The serializer emits both stacks top-of-stack-first: the brace
depth word, then the closing delimiters of the non-root brace frames in
stored order (the list head is the current top, so the newest frame comes
first, walking toward the root), then the heredoc depth word, then the
non-root heredoc frames (flags word, sentinel length, sentinel codepoints)
in the same newest-first order.  `dropLast` drops exactly the root frame
(the chain's last element, shown to be the zeroed root), so the roots of
both stacks are never encoded. -/
theorem serialize_layout_top_first (st : scanner_state)
    (h : stateChainOK st = true) :
    serialize_bytes st
      = le_bytes 8 (braceHeadDepth st.current_brace)
        ++ (st.current_brace.dropLast.map
            (fun f => le_bytes 4 f.closing_brace)).flatten
        ++ le_bytes 8 (heredocHeadDepth st.current_heredoc)
        ++ (st.current_heredoc.dropLast.map
            (fun f => le_bytes 4 f.all_flags ++ le_bytes 8 f.sentinel.length
              ++ words_bytes f.sentinel)).flatten
    ∧ st.current_brace.getLast? = some ⟨0, 0⟩
    ∧ st.current_heredoc.getLast? = some ⟨0, [], 0⟩ := by
  simp only [stateChainOK, Bool.and_eq_true] at h
  obtain ⟨hb, hh⟩ := h
  refine ⟨?_, braceChainD_getLast _ _ hb, heredocChainD_getLast _ _ hh⟩
  rw [show serialize_bytes st
      = le_bytes 8 (braceHeadDepth st.current_brace)
        ++ serialize_brace_loop st.current_brace
        ++ le_bytes 8 (heredocHeadDepth st.current_heredoc)
        ++ serialize_heredoc_loop st.current_heredoc from rfl]
  rw [serialize_brace_loop_layout _ _ hb, serialize_heredoc_loop_layout _ _ hh]

/-- C10 witness. The layout equation evaluated on a concrete state with
two brace frames and one heredoc frame. -/
theorem serialize_layout_top_first_witness :
    stateChainOK ⟨[⟨2, 93⟩, ⟨1, 41⟩, ⟨0, 0⟩], [⟨1, [72, 73], 5⟩, ⟨0, [], 0⟩]⟩
      = true
    ∧ serialize_bytes
        ⟨[⟨2, 93⟩, ⟨1, 41⟩, ⟨0, 0⟩], [⟨1, [72, 73], 5⟩, ⟨0, [], 0⟩]⟩
      = le_bytes 8 2 ++ (le_bytes 4 93 ++ le_bytes 4 41)
        ++ le_bytes 8 1
        ++ (le_bytes 4 5 ++ le_bytes 8 2 ++ words_bytes [72, 73]) :=
  ⟨by decide,
    by
      have h := (serialize_layout_top_first
        ⟨[⟨2, 93⟩, ⟨1, 41⟩, ⟨0, 0⟩], [⟨1, [72, 73], 5⟩, ⟨0, [], 0⟩]⟩
        (by decide)).1
      rw [h]
      decide⟩

/-- C2. code_bug evidence: calling pop on the root frame of either
freshly created stack evaluates `assert(head->depth > 0)` with depth 0 — a
fatal assertion that aborts the process — rather than returning a
recoverable StackUnderflow error value. -/
theorem pop_root_is_fatal_assertion :
    brace_stack_pop tree_sitter_raku_external_scanner_create.current_brace
      = .error .assertionFailure
    ∧ heredoc_stack_pop tree_sitter_raku_external_scanner_create.current_heredoc
      = .error .assertionFailure :=
  ⟨rfl, rfl⟩

set_option maxRecDepth 40000 in
/-- C3. code_bug evidence: on a reachable state holding 260 brace
frames the serializer writes 1056 bytes — 32 bytes past the 1024-byte
serialization buffer — and the only capacity checks (the two asserts,
evaluated after the writes) fail; there is no SerializationOverflow error
before or instead of the out-of-bounds writes. -/
theorem serialize_overflow_unchecked :
    (serialize_bytes overflowState).length = 1056
    ∧ TREE_SITTER_SERIALIZATION_BUFFER_SIZE = 1024
    ∧ serialize_asserts_ok overflowState = false := by decide

/-- C4. code_bug evidence: `heredoc_stack_push` as written returns
without producing any stack for every non-NULL input — its body is only the
NULL assert, so no frame is allocated and neither the sentinel nor any
flags are stored (the function has no flags parameter at all). -/
theorem heredoc_push_produces_no_stack (top : HeredocFrame)
    (rest : List HeredocFrame) (sentinel : List Nat) :
    heredoc_stack_push (top :: rest) sentinel = .ok none := rfl

/-- C5. `brace_stack_push` records, as the new top frame's closing
delimiter, the registered closing character when the opener is a key of the
pair table, and the opener itself when it is not; the new frame's depth is
the parent's depth plus one, and the push succeeds (returns `.ok`) for
every non-empty input stack. -/
theorem brace_push_uses_pair_table (top : BraceFrame) (rest : List BraceFrame)
    (c : Nat) :
    (∀ d, (c, d) ∈ bracePairs →
      brace_stack_push (top :: rest) c
        = .ok (⟨top.depth + 1, d⟩ :: top :: rest))
    ∧ (c ∉ bracePairs.map Prod.fst →
      brace_stack_push (top :: rest) c
        = .ok (⟨top.depth + 1, c⟩ :: top :: rest)) := by
  constructor
  · intro d hd
    simp only [bracePairs, List.mem_cons, List.not_mem_nil, or_false,
      Prod.mk.injEq] at hd
    rcases hd with ⟨hc, hdv⟩ | ⟨hc, hdv⟩ | ⟨hc, hdv⟩ | ⟨hc, hdv⟩ <;>
      subst hc <;> subst hdv <;> rfl
  · intro hc
    have hzero : BRACE_TABLE c = 0 := by
      unfold BRACE_TABLE
      cases hf : bracePairs.find? (fun p => p.1 == c) with
      | none => rfl
      | some p =>
        exfalso
        have hmem := List.mem_of_find?_eq_some hf
        have hp := List.find?_some hf
        simp only [beq_iff_eq] at hp
        refine hc ?_
        rw [← hp]
        exact List.mem_map_of_mem Prod.fst hmem
    simp [brace_stack_push, hzero]

/-- C5 witness. `(` (codepoint 40) is in the table and closes with `)`
(codepoint 41); `!` (codepoint 33) is not a key and closes with itself. -/
theorem brace_push_uses_pair_table_witness :
    ((40, 41) ∈ bracePairs
      ∧ brace_stack_push [⟨0, 0⟩] 40 = .ok [⟨1, 41⟩, ⟨0, 0⟩])
    ∧ (33 ∉ bracePairs.map Prod.fst
      ∧ brace_stack_push [⟨0, 0⟩] 33 = .ok [⟨1, 33⟩, ⟨0, 0⟩]) :=
  ⟨⟨by decide, (brace_push_uses_pair_table ⟨0, 0⟩ [] 40).1 41 (by decide)⟩,
   ⟨by decide, (brace_push_uses_pair_table ⟨0, 0⟩ [] 33).2 (by decide)⟩⟩

/-- C7. The spec's concrete scenario, evaluated: from the fresh state,
pushing `(` (codepoint 40) yields closing delimiter `)` (41); pushing `[`
(91) on top yields `]` (93); popping once leaves depth 1 with top closing
delimiter `)`; and serializing that state then deserializing reproduces
exactly the brace stack of depth 1 with the single recorded `)`. -/
theorem paren_bracket_scenario_roundtrip :
    brace_stack_push tree_sitter_raku_external_scanner_create.current_brace 40
      = .ok [⟨1, 41⟩, ⟨0, 0⟩]
    ∧ brace_stack_push [⟨1, 41⟩, ⟨0, 0⟩] 91 = .ok [⟨2, 93⟩, ⟨1, 41⟩, ⟨0, 0⟩]
    ∧ brace_stack_pop [⟨2, 93⟩, ⟨1, 41⟩, ⟨0, 0⟩] = .ok [⟨1, 41⟩, ⟨0, 0⟩]
    ∧ braceHeadDepth [⟨1, 41⟩, ⟨0, 0⟩] = 1
    ∧ tree_sitter_raku_external_scanner_deserialize
        (serialize_bytes ⟨[⟨1, 41⟩, ⟨0, 0⟩], [⟨0, [], 0⟩]⟩)
      = some ⟨[⟨1, 41⟩, ⟨0, 0⟩], [⟨0, [], 0⟩]⟩ :=
  ⟨rfl, rfl, rfl, rfl, by decide⟩

/-- C8. code_bug evidence: on the 16-byte slice whose leading `size_t`
declares a count/length of 1000, the source's `BUF_READ_ARRAY` macro
`memcpy`s up to byte offset 4008 — far past the slice's 16 bytes — with no
bounds comparison and no error outcome; a validating decoder (the
spec-modelled deserializer) instead rejects the slice, and maps the empty
slice to the fresh state. -/
theorem buf_read_array_reads_past_slice :
    corruptSlice.length = 16
    ∧ BUF_READ_ARRAY_len corruptSlice = 1000
    ∧ BUF_READ_ARRAY_access_end corruptSlice = 4008
    ∧ tree_sitter_raku_external_scanner_deserialize corruptSlice = none
    ∧ tree_sitter_raku_external_scanner_deserialize []
      = some tree_sitter_raku_external_scanner_create := by decide

/-- Lemma: `heredoc_stack_free` never returns on a non-NULL stack, whatever the
fuel: its recursive call passes the same head pointer. -/
theorem heredoc_stack_free_fuel_none (top : HeredocFrame)
    (rest : List HeredocFrame) : ∀ (fuel : Nat),
    heredoc_stack_free_fuel fuel (top :: rest) = none := by
  intro fuel
  induction fuel with
  | zero => rfl
  | succ k ih => simp [heredoc_stack_free_fuel, ih]

/-- Lemma: `brace_stack_free`, by contrast, is well founded: with fuel exceeding
the chain length it returns, freeing every frame. -/
theorem brace_stack_free_fuel_total : ∀ (l : List BraceFrame),
    brace_stack_free_fuel (l.length + 1) l = some l.length := by
  intro l
  induction l with
  | nil => rfl
  | cons f t ih => simp [brace_stack_free_fuel, ih]

/-- C9. code_bug evidence: destroying even the freshly created state
never returns, for any amount of fuel, because `heredoc_stack_free`
recurses on its own argument instead of `head->next`; the brace stack's
free, whose recursion is on the parent chain, terminates for every chain
given sufficient fuel. -/
theorem destroy_never_returns :
    (∀ fuel : Nat, tree_sitter_raku_external_scanner_destroy_fuel fuel
        tree_sitter_raku_external_scanner_create = none)
    ∧ (∀ l : List BraceFrame,
        brace_stack_free_fuel (l.length + 1) l = some l.length) := by
  constructor
  · intro fuel
    unfold tree_sitter_raku_external_scanner_destroy_fuel
    cases hb : brace_stack_free_fuel fuel
        tree_sitter_raku_external_scanner_create.current_brace with
    | none => simp [hb]
    | some b =>
      simp [hb, tree_sitter_raku_external_scanner_create,
        heredoc_stack_free_fuel_none]
  · exact brace_stack_free_fuel_total

/-- C6. code_bug evidence: the depth law fails at the first heredoc
operation from a fresh state.  After one heredoc push the net push count is
1, and the push the spec prescribes (`heredoc_stack_push_spec`) indeed
yields a stack of depth 1; but the source's `heredoc_stack_push` produces
no stack at all, so no resulting depth exists to equal the net push count.
Moreover a heredoc pop at depth 1 — a successful pop according to the
claim — never completes in the source, because the detached top frame is
handed to the self-recursing `heredoc_stack_free` (`none` for every fuel);
and a pop on a root frame is a fatal assert-abort rather than a rejected
StackUnderflow (see the C2 evidence).  For contrast, the first brace push,
embedded from the source, does satisfy the law: depth 0 becomes depth 1. -/
theorem depth_law_fails_on_heredoc_ops :
    heredoc_stack_push
        tree_sitter_raku_external_scanner_create.current_heredoc [69, 78, 68]
      = .ok none
    ∧ heredoc_stack_push_spec
        tree_sitter_raku_external_scanner_create.current_heredoc [69, 78, 68] 3
      = .ok [⟨1, [69, 78, 68], 3⟩, ⟨0, [], 0⟩]
    ∧ heredocHeadDepth [⟨1, [69, 78, 68], 3⟩, ⟨0, [], 0⟩] = 1
    ∧ (∀ fuel, heredoc_stack_free_fuel fuel [⟨1, [69, 78, 68], 3⟩] = none)
    ∧ brace_stack_push
        tree_sitter_raku_external_scanner_create.current_brace 40
      = .ok [⟨1, 41⟩, ⟨0, 0⟩]
    ∧ braceHeadDepth [⟨1, 41⟩, ⟨0, 0⟩] = 1 :=
  ⟨rfl, rfl, rfl, fun fuel => heredoc_stack_free_fuel_none _ _ fuel, rfl, rfl⟩
